import Mathlib

/-!
Verification development for the obsidian-singularity link-synchronization and
caching engine.  The definitions below are a shallow embedding of the
TypeScript sources:

* `src/api/singularity.ts`  — rich-text (Quill Delta) link editor and note parsing
* `src/sync/obsidianLink.ts` — synchronizer and identity scheme
* `src/cache/taskCache.ts`  — time-boxed record cache and status resolution

JavaScript strings are modelled as Lean `String` (operations are carried out
on the underlying `List Char`), machine timestamps as `Int` milliseconds, and
rejected promises as `Except String`.
-/

namespace Singularity

/-! ### JavaScript string primitives

`String.prototype.includes`, `indexOf`, `startsWith` and `substring(0, n)` are
modelled character-by-character. -/

/-- JavaScript substring/prefix test at the head of a character list. -/
def listHasPre : List Char → List Char → Bool
  | [], _ => true
  | _ :: _, [] => false
  | p :: ps, c :: cs => p = c && listHasPre ps cs

/-- Whether `pat` occurs anywhere in `l` (JS `String.prototype.includes`). -/
def listHasSub (pat : List Char) : List Char → Bool
  | [] => listHasPre pat []
  | c :: cs => listHasPre pat (c :: cs) || listHasSub pat cs

/-- JS `s.includes(pat)`. -/
def strIncludes (s pat : String) : Bool := listHasSub pat.toList s.toList

/-- JS `s.startsWith(pat)`. -/
def strStarts (s pat : String) : Bool := listHasPre pat.toList s.toList

/-- Index of the first occurrence of `pat`, with accumulator; `-1` if absent
(JS `String.prototype.indexOf`). -/
def idxAux (pat : List Char) : List Char → Nat → Int
  | [], i => if listHasPre pat [] then (i : Int) else -1
  | c :: cs, i => if listHasPre pat (c :: cs) then (i : Int) else idxAux pat cs (i + 1)

/-- JS `s.indexOf(pat)`. -/
def strIndexOf (s pat : String) : Int := idxAux pat.toList s.toList 0

/-- JS `s.substring(0, n)`. -/
def strTake (s : String) (n : Nat) : String := String.mk (s.toList.take n)

/-- JS `s.endsWith(pat)`. -/
def strEnds (s pat : String) : Bool := listHasPre pat.toList.reverse s.toList.reverse

/-! ### JSON values and Delta operations

`DeltaOp` mirrors the `DeltaOp` interface of `src/types.ts`: an `insert`
string and optional attributes, of which `link` is the one the code
inspects; the remaining attribute keys (`bold`, `italic`, `[key: string]:
unknown`) are kept as an opaque key/value list of JSON values. -/

/-- A JSON value, as produced by `JSON.parse`. -/
inductive Json where
  | jnull : Json
  | jbool : Bool → Json
  | jnum : Int → Json
  | jstr : String → Json
  | jarr : List Json → Json
  | jobj : List (String × Json) → Json

/-- Attributes of a Delta operation: the `link` key (the only one the sync
code reads or writes) plus all other keys. -/
structure DeltaAttrs where
  link : Option String
  other : List (String × Json)

/-- One Quill Delta operation, `{ insert: string, attributes?: {...} }`. -/
structure DeltaOp where
  insert : String
  attributes : Option DeltaAttrs

/-- The `attributes?.link` optional chain. -/
def opLink (op : DeltaOp) : Option String := op.attributes.bind DeltaAttrs.link

/-! ### Rich-Text Link Editor (`SingularityAPI`, src/api/singularity.ts)

All three scanners of the source are `for` loops over the operation array
returning the first index/operation satisfying a predicate; `findOpFrom`
captures that loop shape with the running index made explicit. -/

/-- First operation (with its index, counting from `i`) satisfying `p`. -/
def findOpFrom (p : DeltaOp → Bool) : List DeltaOp → Nat → Option (Nat × DeltaOp)
  | [], _ => none
  | op :: rest, i => if p op then some (i, op) else findOpFrom p rest (i + 1)

/-- Test of `findObsidianLinkById`'s loop body:
`op.attributes?.link?.includes('#sid=' + singularityId)`. -/
def opHasSid (sid : String) (op : DeltaOp) : Bool :=
  match opLink op with
  | some l => strIncludes l ("#sid=" ++ sid)
  | none => false

/-- `findObsidianLinkById(deltaOps, singularityId)` (lines 148–161): first
operation whose link contains the `#sid=<id>` fragment. -/
def findObsidianLinkById (deltaOps : List DeltaOp) (singularityId : String) :
    Option (Nat × DeltaOp) :=
  findOpFrom (opHasSid singularityId) deltaOps 0

/-- Loop body of `findAnyObsidianLink`: an `obsidian://` link whose URL does
not already contain the `#sid=` marker (already-migrated links `continue`). -/
def isLegacyObsidianLink (op : DeltaOp) : Bool :=
  match opLink op with
  | some l => strStarts l "obsidian://" && !strIncludes l "#sid="
  | none => false

/-- `findAnyObsidianLink(deltaOps)` (lines 186–198): first unmigrated legacy
`obsidian://` link. -/
def findAnyObsidianLink (deltaOps : List DeltaOp) : Option (Nat × DeltaOp) :=
  findOpFrom isLegacyObsidianLink deltaOps 0

/-- `createNoteLinkOps(noteTitle, obsidianUrl, singularityId)` (lines 204–211):
the identified link operation followed by a newline operation. -/
def createNoteLinkOps (noteTitle obsidianUrl singularityId : String) : List DeltaOp :=
  [ { insert := "Obsidian: \"" ++ noteTitle ++ "\"",
      attributes := some { link := some (obsidianUrl ++ "#sid=" ++ singularityId),
                           other := [] } },
    { insert := "\n", attributes := none } ]

/-- `isOnlyNewline(op)` (lines 291–293): `op?.insert === '\n' && !op.attributes`
(an attribute object, even empty, is truthy in JS, hence `isNone`). -/
def isOnlyNewline (op : DeltaOp) : Bool :=
  op.insert = "\n" && op.attributes.isNone

/-- The replacement attributes `{ ...existing.op.attributes, link: urlWithSid }`:
spreading an absent attribute object yields the empty object. -/
def attrsWithLink (a : Option DeltaAttrs) (l : String) : DeltaAttrs :=
  match a with
  | some attrs => { attrs with link := some l }
  | none => { link := some l, other := [] }

/-- The operation written for an identified link: the labelled display text
and the address carrying the `#sid=` fragment, over base attributes `a`. -/
def newLinkOp (title url sid : String) (a : Option DeltaAttrs) : DeltaOp :=
  { insert := "Obsidian: \"" ++ title ++ "\"",
    attributes := some (attrsWithLink a (url ++ "#sid=" ++ sid)) }

/-- `updateObsidianLinkById(deltaOps, noteTitle, obsidianUrl, singularityId)`
(lines 217–256).  If a link with the identifier exists, its text and link are
replaced in place (other attributes kept); otherwise a fresh link pair is
appended, after dropping one trailing bare-newline operation and inserting a
separator newline when content remains. -/
def updateObsidianLinkById (deltaOps : List DeltaOp)
    (noteTitle obsidianUrl singularityId : String) : List DeltaOp :=
  match findObsidianLinkById deltaOps singularityId with
  | some (i, op) =>
      deltaOps.set i
        { insert := "Obsidian: \"" ++ noteTitle ++ "\"",
          attributes := some (attrsWithLink op.attributes
            (obsidianUrl ++ "#sid=" ++ singularityId)) }
  | none =>
      let ops1 :=
        match deltaOps.getLast? with
        | some lastOp => if isOnlyNewline lastOp then deltaOps.dropLast else deltaOps
        | none => deltaOps
      let ops2 :=
        if ops1.isEmpty then ops1
        else ops1 ++ [{ insert := "\n", attributes := none }]
      ops2 ++ createNoteLinkOps noteTitle obsidianUrl singularityId

/-- `addSidToLink(deltaOps, linkIndex, singularityId)` (lines 262–279): append
the `#sid=` fragment to the link of the operation at `linkIndex`, keeping its
text; a missing operation or falsy link (absent or empty string) leaves the
sequence unchanged. -/
def addSidToLink (deltaOps : List DeltaOp) (linkIndex : Nat)
    (singularityId : String) : List DeltaOp :=
  match deltaOps[linkIndex]? with
  | none => deltaOps
  | some op =>
      match op.attributes with
      | none => deltaOps
      | some a =>
          match a.link with
          | none => deltaOps
          | some l =>
              if l = "" then deltaOps
              else deltaOps.set linkIndex
                { op with attributes := some { a with link := some (l ++ "#sid=" ++ singularityId) } }

/-- `parseNoteContent(content)` (lines 131–137): `JSON.parse` inside
`try/catch`, the failure branch yielding `[]`; a successful parse is returned
unchecked, the `as DeltaOp[]` cast performing no validation.  The input is
modelled as the outcome of `JSON.parse`: `none` stands for a content string
that is not valid JSON. -/
def parseNoteContent : Option Json → Json
  | none => Json.jarr []
  | some j => j

/-- Typed view of a JSON value as an operation list, for relating
`parseNoteContent`'s untyped result to the `DeltaOp` world. -/
def decodeAttrs (j : Json) : Option DeltaAttrs :=
  match j with
  | Json.jobj fields =>
      let link :=
        match (fields.find? (fun f => f.1 = "link")).map Prod.snd with
        | some (Json.jstr s) => some s
        | _ => none
      some { link := link, other := fields.filter (fun f => f.1 ≠ "link") }
  | _ => none

/-- Typed view of one JSON object as a Delta operation. -/
def decodeOp (j : Json) : Option DeltaOp :=
  match j with
  | Json.jobj fields =>
      match (fields.find? (fun f => f.1 = "insert")).map Prod.snd with
      | some (Json.jstr s) =>
          some { insert := s,
                 attributes := ((fields.find? (fun f => f.1 = "attributes")).map Prod.snd).bind decodeAttrs }
      | _ => none
  | _ => none

/-- Typed view of a JSON value as a whole operation sequence. -/
def opsOfJson : Json → Option (List DeltaOp)
  | Json.jarr items => items.mapM decodeOp
  | _ => none

/-- Valid operation sequence in the sense of the spec's data model (§3
RichTextOp): an array of objects each carrying a string `insert`.  Stated
from the spec's words, to express claim C7's hypothesis. -/
def isOpSeqJson (j : Json) : Bool :=
  match j with
  | Json.jarr items => items.all (fun it => (decodeOp it).isSome)
  | _ => false

/-! ### Synchronizer (`ObsidianLinkSync`, src/sync/obsidianLink.ts) -/

/-- `extractBaseUrl(op)` (lines 275–281): the link value with a `#sid=`
fragment stripped, or `null` when the operation carries no `obsidian://`
link. -/
def extractBaseUrl (op : DeltaOp) : Option String :=
  match opLink op with
  | none => none
  | some url =>
      if strStarts url "obsidian://" then
        let hashIndex := strIndexOf url "#sid="
        if hashIndex > 0 then some (strTake url hashIndex.toNat) else some url
      else none

/-- Decision core of `syncObsidianUrl` (lines 228–258) for a task that already
has a note body: `none` means the early return with no remote write, `some
newOps` means `updateTaskNote` is called with `newOps`.  The three-step
resolution order: lookup by identity (skip when the base URL already
matches), else migrate a legacy link, else append a fresh link. -/
def syncDecision (currentOps : List DeltaOp)
    (noteTitle obsidianUrl singularityId : String) : Option (List DeltaOp) :=
  match findObsidianLinkById currentOps singularityId with
  | some (_, op) =>
      if extractBaseUrl op = some obsidianUrl then none
      else some (updateObsidianLinkById currentOps noteTitle obsidianUrl singularityId)
  | none =>
      match findAnyObsidianLink currentOps with
      | some (i, _) => some (addSidToLink currentOps i singularityId)
      | none => some (updateObsidianLinkById currentOps noteTitle obsidianUrl singularityId)

/-! ### Identity scheme (`ObsidianLinkSync`, src/sync/obsidianLink.ts) -/

/-- Character class `[a-f0-9-]` with the `i` flag of the regex
`/#sid=([a-f0-9-]+)/i` in `extractSidFromUrl`. -/
def isSidChar (c : Char) : Bool :=
  ('a' ≤ c && c ≤ 'f') || ('A' ≤ c && c ≤ 'F') || c.isDigit || c = '-'

/-- Longest run of identifier characters, the `+` capture of the regex. -/
def takeSidChars : List Char → List Char
  | [] => []
  | c :: rest => if isSidChar c then c :: takeSidChars rest else []

/-- Left-to-right regex scan of `/#sid=([a-f0-9-]+)/i`: at each position try
to match the literal `#sid=` followed by at least one identifier character;
on failure resume one character further. -/
def extractSidAux : List Char → Option String
  | [] => none
  | c :: rest =>
      if listHasPre "#sid=".toList (c :: rest) then
        let l := takeSidChars ((c :: rest).drop 5)
        if l.isEmpty then extractSidAux rest else some (String.mk l)
      else extractSidAux rest

/-- `extractSidFromUrl(url)` (lines 121–124): first `#sid=<id>` capture of the
URL, or `null`. -/
def extractSidFromUrl (url : String) : Option String :=
  extractSidAux url.toList

/-- Hexadecimal digit character, as produced by `v.toString(16)` for
`v < 16`. -/
def hexDigit (n : Nat) : Char :=
  if n < 10 then Char.ofNat ('0'.toNat + n) else Char.ofNat ('a'.toNat + (n - 10))

/-- The template string of `generateUUID`. -/
def uuidTemplate : List Char := "xxxxxxxx-xxxx-4xxx-yxxx-xxxxxxxxxxxx".toList

/-- Replacement loop of `generateUUID` (lines 110–116): each `x` becomes a
random hex digit `r`, each `y` becomes `(r & 0x3) | 0x8`; the random stream is
modelled by `rnd`, applied to the template position and truncated to `[0, 16)`
as `(Math.random() * 16) | 0` guarantees. -/
def uuidFill (rnd : Nat → Nat) : List Char → Nat → List Char
  | [], _ => []
  | c :: rest, i =>
      if c = 'x' then hexDigit (rnd i % 16) :: uuidFill rnd rest (i + 1)
      else if c = 'y' then
        hexDigit (Nat.lor (Nat.land (rnd i % 16) 3) 8) :: uuidFill rnd rest (i + 1)
      else c :: uuidFill rnd rest (i + 1)

/-- `generateUUID()` (lines 110–116), parameterized by the random stream. -/
def generateUUID (rnd : Nat → Nat) : String :=
  String.mk (uuidFill rnd uuidTemplate 0)

/-- Mutation applied by `addSidToFieldUrl` (lines 172–205) to the string field
value inside `processFrontMatter`: append the fragment only when the current
value does not already contain `'#sid='`. -/
def addSidToFieldValue (value sid : String) : String :=
  if strIncludes value "#sid=" then value else value ++ "#sid=" ++ sid

/-- `getOrCreateSingularityId(file, url, fieldName)` (lines 154–167), per
field value: return the existing embedded identifier unchanged, else generate
a fresh UUID and persist it through the field mutator.  The result pairs the
returned identifier with `none` when no mutator call happens and `some v`
when the mutator rewrites the field to `v`. -/
def getOrCreateSingularityId (rnd : Nat → Nat) (fieldValue : String) :
    String × Option String :=
  match extractSidFromUrl fieldValue with
  | some sid => (sid, none)
  | none =>
      let newId := generateUUID rnd
      (newId, some (addSidToFieldValue fieldValue newId))

/-! ### Record cache (`TaskCache`, src/cache/taskCache.ts)

The live variant of the file (the one whose three-argument constructor
`new TaskCache(api, cacheTTL, language)` is invoked from `main.ts`) carries a
`language` field and resolves the fixed status labels through `LOCALES`.
Only the two label strings matter to the claims, so the `LOCALES[language]`
lookup is abstracted into a `Locale` record.  Timestamps are `Int`
milliseconds and the remote verbs are an environment of `Except`-valued
fetches; `Promise.all` of the three dependent fetches is sequenced
left-to-right (the host is single-threaded and the claims only concern the
per-task cache, which none of the dependent fetches touches). -/

/-- Task record from the remote store (`SingularityTask`, src/types.ts). -/
structure SingularityTask where
  id : String
  title : String
  note : Option String
  projectId : String
  tags : List String
  checked : Int
  deriving DecidableEq

/-- Tag record (`SingularityTag`, src/types.ts). -/
structure SingularityTag where
  id : String
  title : String
  deriving DecidableEq

/-- Kanban status record (`KanbanStatus`, src/types.ts). -/
structure KanbanStatus where
  id : String
  name : String
  deriving DecidableEq

/-- Task-to-status assignment (`TaskKanbanStatus`, src/types.ts). -/
structure TaskKanbanStatus where
  taskId : String
  statusId : String
  deriving DecidableEq

/-- The two fixed labels drawn from `LOCALES[this.language]`. -/
structure Locale where
  statusCancelled : String
  statusDone : String
  deriving DecidableEq

/-- Resolved status value `{ id, name } | null`. -/
structure ResolvedStatus where
  id : String
  name : String
  deriving DecidableEq

/-- Enriched record (`TaskData`, src/types.ts). -/
structure TaskData where
  id : String
  title : String
  projectId : String
  status : Option ResolvedStatus
  tags : List SingularityTag
  noteId : Option String
  isCompleted : Bool
  isCancelled : Bool
  deriving DecidableEq

/-- Cache entry `{ data, timestamp }`. -/
structure CacheEntry (α : Type) where
  data : α
  timestamp : Int
  deriving DecidableEq

/-- The remote-store verbs used by `getTaskData`, as `Except`-valued
fetches (a rejected promise is `Except.error`). -/
structure ApiEnv where
  getTask : String → Except String SingularityTask
  getTaskKanbanStatus : String → Except String (List TaskKanbanStatus)
  getKanbanStatuses : String → Except String (List KanbanStatus)
  getTags : Except String (List SingularityTag)

/-- The three cache maps owned by `TaskCache`; the `Map`s are modelled as
association lists. -/
structure CacheState where
  taskCache : List (String × CacheEntry TaskData)
  kanbanCache : List (String × CacheEntry (List KanbanStatus))
  tagsCache : Option (CacheEntry (List SingularityTag))

/-- `Map.prototype.get`. -/
def mapLookup {α : Type} (m : List (String × α)) (k : String) : Option α :=
  (m.find? (fun p => p.1 = k)).map Prod.snd

/-- `Map.prototype.set`. -/
def mapInsert {α : Type} (m : List (String × α)) (k : String) (v : α) :
    List (String × α) :=
  (k, v) :: m.filter (fun p => p.1 ≠ k)

/-- `isExpired(timestamp)` (lines 36–38): `Date.now() - timestamp >
this.cacheTTL * 60 * 1000`, with `ttl` in minutes. -/
def isExpired (ttl now timestamp : Int) : Bool :=
  now - timestamp > ttl * 60 * 1000

/-- `getTags()` (lines 43–55), returning the result together with the updated
cache state. -/
def getTagsCached (env : ApiEnv) (ttl now : Int) (st : CacheState) :
    Except String (List SingularityTag) × CacheState :=
  match st.tagsCache with
  | some e =>
      if !isExpired ttl now e.timestamp then (Except.ok e.data, st)
      else
        match env.getTags with
        | Except.ok tags =>
            (Except.ok tags, { st with tagsCache := some ⟨tags, now⟩ })
        | Except.error e => (Except.error e, st)
  | none =>
      match env.getTags with
      | Except.ok tags =>
          (Except.ok tags, { st with tagsCache := some ⟨tags, now⟩ })
      | Except.error e => (Except.error e, st)

/-- `getTagsByIds(tagIds)` (lines 60–63). -/
def getTagsByIdsCached (env : ApiEnv) (ttl now : Int) (st : CacheState)
    (tagIds : List String) : Except String (List SingularityTag) × CacheState :=
  match getTagsCached env ttl now st with
  | (Except.ok allTags, st') =>
      (Except.ok (allTags.filter (fun tag => tagIds.contains tag.id)), st')
  | (Except.error e, st') => (Except.error e, st')

/-- `getKanbanStatuses(projectId)` (lines 68–81). -/
def getKanbanStatusesCached (env : ApiEnv) (ttl now : Int) (st : CacheState)
    (projectId : String) : Except String (List KanbanStatus) × CacheState :=
  match mapLookup st.kanbanCache projectId with
  | some e =>
      if !isExpired ttl now e.timestamp then (Except.ok e.data, st)
      else
        match env.getKanbanStatuses projectId with
        | Except.ok statuses =>
            (Except.ok statuses,
             { st with kanbanCache := mapInsert st.kanbanCache projectId ⟨statuses, now⟩ })
        | Except.error e => (Except.error e, st)
  | none =>
      match env.getKanbanStatuses projectId with
      | Except.ok statuses =>
          (Except.ok statuses,
           { st with kanbanCache := mapInsert st.kanbanCache projectId ⟨statuses, now⟩ })
      | Except.error e => (Except.error e, st)

/-- The status-determination block of `getTaskData` (lines 102–127):
cancellation (`checked === 2`) forces the fixed cancelled label, completion
(`checked === 1`) forces the fixed done label, else the first explicit
assignment is looked up by identifier in the project's status set, else the
entry whose id ends in `-TODO` is the default; when a lookup fails the status
stays `null`. -/
def resolveStatus (locale : Locale) (task : SingularityTask)
    (taskKanbanStatus : List TaskKanbanStatus)
    (projectStatuses : List KanbanStatus) : Option ResolvedStatus :=
  if task.checked = 2 then
    some { id := "CANCELLED", name := locale.statusCancelled }
  else if task.checked = 1 then
    some { id := "DONE", name := locale.statusDone }
  else
    match taskKanbanStatus with
    | tks :: _ =>
        match projectStatuses.find? (fun s => s.id = tks.statusId) with
        | some ks => some { id := ks.id, name := ks.name }
        | none => none
    | [] =>
        match projectStatuses.find? (fun s => strEnds s.id "-TODO") with
        | some ts => some { id := ts.id, name := ts.name }
        | none => none

/-- Enriched record built at the end of `getTaskData` (lines 129–138). -/
def buildTaskData (locale : Locale) (task : SingularityTask)
    (taskKanbanStatus : List TaskKanbanStatus)
    (projectStatuses : List KanbanStatus) (tags : List SingularityTag) : TaskData :=
  { id := task.id
    title := task.title
    projectId := task.projectId
    status := resolveStatus locale task taskKanbanStatus projectStatuses
    tags := tags
    noteId := task.note
    isCompleted := task.checked = 1
    isCancelled := task.checked = 2 }

/-- Miss path of `getTaskData` (lines 92–145): fetch the task, then its
assignment, scoped status set and tags, build the enriched record and store
it; any rejection aborts with the state accumulated so far (the per-task map
untouched). -/
def fetchTaskData (env : ApiEnv) (locale : Locale) (ttl now : Int)
    (st : CacheState) (taskId : String) : Except String TaskData × CacheState :=
  match env.getTask taskId with
  | Except.error e => (Except.error e, st)
  | Except.ok task =>
      match env.getTaskKanbanStatus taskId with
      | Except.error e => (Except.error e, st)
      | Except.ok taskKanbanStatus =>
          match getKanbanStatusesCached env ttl now st task.projectId with
          | (Except.error e, st1) => (Except.error e, st1)
          | (Except.ok projectStatuses, st1) =>
              match getTagsByIdsCached env ttl now st1 task.tags with
              | (Except.error e, st2) => (Except.error e, st2)
              | (Except.ok tags, st2) =>
                  let td := buildTaskData locale task taskKanbanStatus projectStatuses tags
                  (Except.ok td,
                   { st2 with taskCache := mapInsert st2.taskCache taskId ⟨td, now⟩ })

/-- `getTaskData(taskId)` (lines 86–146): serve an unexpired entry from the
per-task cache, otherwise run the miss path. -/
def getTaskData (env : ApiEnv) (locale : Locale) (ttl now : Int)
    (st : CacheState) (taskId : String) : Except String TaskData × CacheState :=
  match mapLookup st.taskCache taskId with
  | some entry =>
      if !isExpired ttl now entry.timestamp then (Except.ok entry.data, st)
      else fetchTaskData env locale ttl now st taskId
  | none => fetchTaskData env locale ttl now st taskId

/-- Whether the per-task cache cannot serve `taskId` (absent or expired), i.e.
`getTaskData` takes its miss path. -/
def taskCacheMiss (ttl now : Int) (st : CacheState) (taskId : String) : Bool :=
  match mapLookup st.taskCache taskId with
  | none => true
  | some entry => isExpired ttl now entry.timestamp

/-! ### Lemmas on the string scanners -/

theorem listHasPre_refl (p : List Char) : listHasPre p p = true := by
  induction p with
  | nil => rfl
  | cons c cs ih => simp [listHasPre, ih]

theorem listHasPre_append_left {p xs : List Char} (h : listHasPre p xs = true)
    (ys : List Char) : listHasPre p (xs ++ ys) = true := by
  induction p generalizing xs with
  | nil => rfl
  | cons c cs ih =>
      cases xs with
      | nil => simp [listHasPre] at h
      | cons x xt =>
          simp only [listHasPre, Bool.and_eq_true, decide_eq_true_eq] at h
          simp only [List.cons_append, listHasPre, Bool.and_eq_true, decide_eq_true_eq]
          exact ⟨h.1, ih h.2⟩

theorem listHasPre_length {p l : List Char} (h : listHasPre p l = true) :
    p.length ≤ l.length := by
  induction p generalizing l with
  | nil => simp
  | cons c cs ih =>
      cases l with
      | nil => simp [listHasPre] at h
      | cons x xt =>
          simp only [listHasPre, Bool.and_eq_true] at h
          simpa [Nat.succ_le_succ_iff] using ih h.2

theorem listHasSub_of_suffix {p l : List Char} (xs : List Char)
    (h : listHasPre p l = true) : listHasSub p (xs ++ l) = true := by
  induction xs with
  | nil =>
      cases l with
      | nil => simpa [listHasSub] using h
      | cons c cs => simp [listHasSub, h]
  | cons x xt ih => simp [listHasSub, ih]

theorem listHasSub_cons_elim {p : List Char} {c : Char} {cs : List Char}
    (h : listHasSub p (c :: cs) = false) :
    listHasPre p (c :: cs) = false ∧ listHasSub p cs = false := by
  simpa [listHasSub, Bool.or_eq_false_iff] using h

/-- A `#sid=` match cannot start strictly inside a segment that did not
already match it and straddle into a following `#`-headed tail: the pattern
does not overlap itself. -/
theorem hasPre_sid_mid (c : Char) (xs tail : List Char)
    (h : listHasPre "#sid=".toList (c :: xs) = false) :
    listHasPre "#sid=".toList (c :: (xs ++ '#' :: tail)) = false := by
  match xs with
  | [] => simp [listHasPre]
  | [a] => simp [listHasPre]
  | [a, b] => simp [listHasPre]
  | [a, b, d] => simp [listHasPre]
  | a :: b :: d :: e :: rest =>
      simpa [listHasPre] using h

theorem sidPat_eq : "#sid=".toList = ['#', 's', 'i', 'd', '='] := rfl

theorem extractSidAux_cons (c : Char) (rest : List Char) :
    extractSidAux (c :: rest) =
      if listHasPre "#sid=".toList (c :: rest) then
        (let l := takeSidChars ((c :: rest).drop 5)
         if l.isEmpty then extractSidAux rest else some (String.mk l))
      else extractSidAux rest := rfl

/-- On a list free of `#sid=`, the scanner of `extractSidFromUrl` never
fires. -/
theorem extractSidAux_of_no_sub {l : List Char}
    (h : listHasSub "#sid=".toList l = false) : extractSidAux l = none := by
  induction l with
  | nil => rfl
  | cons c cs ih =>
      obtain ⟨h1, h2⟩ := listHasSub_cons_elim h
      rw [extractSidAux_cons, if_neg (by simpa [sidPat_eq] using h1), ih h2]

theorem takeSidChars_all {l : List Char} (h : ∀ c ∈ l, isSidChar c = true) :
    takeSidChars l = l := by
  induction l with
  | nil => rfl
  | cons c cs ih =>
      simp only [takeSidChars, h c (List.mem_cons_self c cs), if_true]
      exact congrArg (c :: ·) (ih fun x hx => h x (List.mem_cons_of_mem c hx))

/-- Scanning `v ++ "#sid=" ++ id` where `v` is free of the marker and `id` is
a nonempty run of identifier characters captures exactly `id`. -/
theorem extractSidAux_append {v : List Char} (id : List Char)
    (hv : listHasSub "#sid=".toList v = false)
    (hne : id ≠ []) (hall : ∀ c ∈ id, isSidChar c = true) :
    extractSidAux (v ++ ('#' :: 's' :: 'i' :: 'd' :: '=' :: id)) =
      some (String.mk id) := by
  induction v with
  | nil =>
      have hpre : listHasPre "#sid=".toList
          ('#' :: 's' :: 'i' :: 'd' :: '=' :: id) = true := by
        simp [sidPat_eq, listHasPre]
      have htk : takeSidChars (('#' :: 's' :: 'i' :: 'd' :: '=' :: id).drop 5) = id := by
        simpa using takeSidChars_all hall
      rw [List.nil_append, extractSidAux_cons, if_pos (by simpa [sidPat_eq] using hpre)]
      simp only [htk]
      rw [if_neg (by simpa [List.isEmpty_iff] using hne)]
  | cons c cs ih =>
      obtain ⟨h1, h2⟩ := listHasSub_cons_elim hv
      have hmid := hasPre_sid_mid c cs ('s' :: 'i' :: 'd' :: '=' :: id) h1
      rw [List.cons_append, extractSidAux_cons, if_neg (by simpa [sidPat_eq] using hmid), ih h2]

/-- Index computation of `extractBaseUrl`: in `v ++ "#sid=" ++ id` with `v`
free of the marker, the first occurrence is exactly at `v.length`. -/
theorem idxAux_cons (pat : List Char) (c : Char) (cs : List Char) (n : Nat) :
    idxAux pat (c :: cs) n =
      if listHasPre pat (c :: cs) then (n : Int) else idxAux pat cs (n + 1) := rfl

theorem idxAux_append {v : List Char} (id : List Char) (n : Nat)
    (hv : listHasSub "#sid=".toList v = false) :
    idxAux "#sid=".toList (v ++ ('#' :: 's' :: 'i' :: 'd' :: '=' :: id)) n =
      (n + v.length : Int) := by
  induction v generalizing n with
  | nil => simp [idxAux_cons, sidPat_eq, listHasPre]
  | cons c cs ih =>
      obtain ⟨h1, h2⟩ := listHasSub_cons_elim hv
      have hmid := hasPre_sid_mid c cs ('s' :: 'i' :: 'd' :: '=' :: id) h1
      rw [List.cons_append, idxAux_cons, if_neg (by simpa [sidPat_eq] using hmid), ih (n + 1) h2]
      push_cast [List.length_cons]
      ring

theorem str_toList_append (s t : String) : (s ++ t).toList = s.toList ++ t.toList := by
  cases s; cases t; rfl

theorem str_mk_toList (s : String) : String.mk s.toList = s := by
  cases s; rfl

/-! ### Lemmas on the operation scanners -/

theorem findOpFrom_eq_none {p : DeltaOp → Bool} {ops : List DeltaOp} {i : Nat} :
    findOpFrom p ops i = none ↔ ∀ op ∈ ops, p op = false := by
  induction ops generalizing i with
  | nil => simp [findOpFrom]
  | cons a rest ih =>
      by_cases h : p a = true
      · simp [findOpFrom, h]
      · simp only [Bool.not_eq_true] at h
        simp [findOpFrom, h, ih]

theorem findOpFrom_append_first {p : DeltaOp → Bool} {pre : List DeltaOp}
    (hpre : ∀ o ∈ pre, p o = false) {q : DeltaOp} (hq : p q = true)
    (rest : List DeltaOp) (i : Nat) :
    findOpFrom p (pre ++ q :: rest) i = some (i + pre.length, q) := by
  induction pre generalizing i with
  | nil => simp [findOpFrom, hq]
  | cons a tl ih =>
      have ha : p a = false := hpre a (List.mem_cons_self a tl)
      have htl : ∀ o ∈ tl, p o = false := fun o ho => hpre o (List.mem_cons_of_mem a ho)
      rw [List.cons_append, findOpFrom, if_neg (by simp [ha]), ih htl (i + 1)]
      congr 1
      simp [List.length_cons]
      omega

theorem findOpFrom_some_decomp {p : DeltaOp → Bool} {ops : List DeltaOp}
    {i j : Nat} {op : DeltaOp} (h : findOpFrom p ops i = some (j, op)) :
    ∃ pre rest, ops = pre ++ op :: rest ∧ i + pre.length = j ∧
      (∀ o ∈ pre, p o = false) ∧ p op = true := by
  induction ops generalizing i with
  | nil => simp [findOpFrom] at h
  | cons a rest ih =>
      by_cases ha : p a = true
      · rw [findOpFrom, if_pos (by simp [ha])] at h
        obtain ⟨hj, hop⟩ : j = i ∧ op = a := by
          have := Option.some.inj h
          exact ⟨(Prod.mk.inj this).1.symm, (Prod.mk.inj this).2.symm⟩
        subst hj; subst hop
        exact ⟨[], rest, by simp, by simp, by simp, ha⟩
      · simp only [Bool.not_eq_true] at ha
        rw [findOpFrom, if_neg (by simp [ha])] at h
        obtain ⟨pre, tl, hops, hlen, hpre, hop⟩ := ih h
        refine ⟨a :: pre, tl, by simp [hops], by simp [List.length_cons]; omega, ?_, hop⟩
        intro o ho
        rcases List.mem_cons.mp ho with rfl | ho'
        · exact ha
        · exact hpre o ho'

theorem set_append_len {α : Type} (pre : List α) (a b : α) (rest : List α) :
    (pre ++ a :: rest).set pre.length b = pre ++ b :: rest := by
  induction pre with
  | nil => rfl
  | cons x xt ih => simp [List.set, ih]

/-! ### UUID character lemmas -/

theorem hexDigit_sidChar {n : Nat} (h : n < 16) : isSidChar (hexDigit n) = true := by
  interval_cases n <;> decide

theorem lor8_lt : ∀ r : Nat, Nat.lor (Nat.land r 3) 8 < 16 := by
  intro r
  have h1 : Nat.land r 3 < 16 :=
    Nat.lt_of_le_of_lt (Nat.and_le_right) (by omega)
  have h2 : (8 : Nat) < 16 := by omega
  exact Nat.or_lt_two_pow (n := 4) h1 h2

theorem uuidFill_all_sidChar (rnd : Nat → Nat) :
    ∀ (tpl : List Char) (i : Nat),
      (∀ c ∈ tpl, c = 'x' ∨ c = 'y' ∨ isSidChar c = true) →
      ∀ c ∈ uuidFill rnd tpl i, isSidChar c = true := by
  intro tpl
  induction tpl with
  | nil => intro i _ c hc; simp [uuidFill] at hc
  | cons t tl ih =>
      intro i htpl c hc
      have hmemtl : ∀ c ∈ tl, c = 'x' ∨ c = 'y' ∨ isSidChar c = true :=
        fun c hc => htpl c (List.mem_cons_of_mem t hc)
      by_cases hx : t = 'x'
      · subst hx
        rw [uuidFill, if_pos rfl] at hc
        rcases List.mem_cons.mp hc with rfl | hc'
        · exact hexDigit_sidChar (Nat.mod_lt _ (by omega))
        · exact ih (i + 1) hmemtl c hc'
      · by_cases hy : t = 'y'
        · subst hy
          rw [uuidFill, if_neg (by decide), if_pos rfl] at hc
          rcases List.mem_cons.mp hc with rfl | hc'
          · exact hexDigit_sidChar (lor8_lt _)
          · exact ih (i + 1) hmemtl c hc'
        · rw [uuidFill, if_neg hx, if_neg hy] at hc
          rcases List.mem_cons.mp hc with rfl | hc'
          · rcases htpl c (List.mem_cons_self c tl) with h | h | h
            · exact absurd h hx
            · exact absurd h hy
            · exact h
          · exact ih (i + 1) hmemtl c hc'

theorem generateUUID_chars (rnd : Nat → Nat) :
    ∀ c ∈ (generateUUID rnd).toList, isSidChar c = true := by
  intro c hc
  have : (generateUUID rnd).toList = uuidFill rnd uuidTemplate 0 := rfl
  rw [this] at hc
  refine uuidFill_all_sidChar rnd uuidTemplate 0 ?_ c hc
  intro x hx
  have : ∀ x ∈ uuidTemplate, x = 'x' ∨ x = 'y' ∨ isSidChar x = true := by decide
  exact this x hx

theorem generateUUID_ne_nil (rnd : Nat → Nat) : (generateUUID rnd).toList ≠ [] := by
  have : (generateUUID rnd).toList = uuidFill rnd uuidTemplate 0 := rfl
  rw [this]
  have htpl : uuidTemplate = 'x' :: "xxxxxxx-xxxx-4xxx-yxxx-xxxxxxxxxxxx".toList := rfl
  rw [htpl, uuidFill, if_pos rfl]
  simp

/-! ### Claim theorems -/

/-- C2.  Status resolution precedence: the cancellation flag (`checked = 2`)
forces the fixed cancelled label regardless of any kanban assignment; else
the completion flag (`checked = 1`) forces the fixed done label; else an
explicit assignment, if any, is looked up by identifier in the scoped status
set; else the status defaults to the scoped status set's `-TODO` entry. -/
theorem resolveStatus_precedence (locale : Locale) (task : SingularityTask)
    (tks : List TaskKanbanStatus) (ps : List KanbanStatus) :
    (task.checked = 2 →
      resolveStatus locale task tks ps =
        some { id := "CANCELLED", name := locale.statusCancelled }) ∧
    (task.checked ≠ 2 → task.checked = 1 →
      resolveStatus locale task tks ps =
        some { id := "DONE", name := locale.statusDone }) ∧
    (task.checked ≠ 2 → task.checked ≠ 1 → ∀ a rest, tks = a :: rest →
      resolveStatus locale task tks ps =
        (ps.find? (fun s => s.id = a.statusId)).map
          (fun ks => { id := ks.id, name := ks.name })) ∧
    (task.checked ≠ 2 → task.checked ≠ 1 → tks = [] →
      resolveStatus locale task tks ps =
        (ps.find? (fun s => strEnds s.id "-TODO")).map
          (fun ks => { id := ks.id, name := ks.name })) := by
  refine ⟨fun h2 => ?_, fun h2 h1 => ?_, fun h2 h1 a rest ha => ?_, fun h2 h1 h0 => ?_⟩
  · simp [resolveStatus, h2]
  · simp [resolveStatus, h2, h1]
  · subst ha
    cases hf : ps.find? (fun s => s.id = a.statusId) with
    | none => simp [resolveStatus, h2, h1, hf]
    | some ks => simp [resolveStatus, h2, h1, hf]
  · subst h0
    cases hf : ps.find? (fun s => strEnds s.id "-TODO") with
    | none => simp [resolveStatus, h2, h1, hf]
    | some ks => simp [resolveStatus, h2, h1, hf]

/-- Witness for C2 at concrete inputs: a cancelled task with an assignment, a
completed task without one, an active assigned task, and an active unassigned
task with a backlog entry. -/
theorem resolveStatus_precedence_witness :
    resolveStatus ⟨"Cancelled", "Done"⟩ ⟨"T1", "t", none, "P", [], 2⟩
        [⟨"T1", "S1"⟩] [⟨"S1", "In progress"⟩] =
      some { id := "CANCELLED", name := "Cancelled" } ∧
    resolveStatus ⟨"Cancelled", "Done"⟩ ⟨"T1", "t", none, "P", [], 1⟩
        [] [⟨"S1", "In progress"⟩] =
      some { id := "DONE", name := "Done" } ∧
    resolveStatus ⟨"Cancelled", "Done"⟩ ⟨"T1", "t", none, "P", [], 0⟩
        [⟨"T1", "S1"⟩] [⟨"S1", "In progress"⟩] =
      some { id := "S1", name := "In progress" } ∧
    resolveStatus ⟨"Cancelled", "Done"⟩ ⟨"T1", "t", none, "P", [], 0⟩
        [] [⟨"KS-P-TODO", "Backlog"⟩] =
      some { id := "KS-P-TODO", name := "Backlog" } :=
  ⟨(resolveStatus_precedence _ _ _ _).1 rfl,
   (resolveStatus_precedence _ _ _ _).2.1 (by decide) rfl,
   ((resolveStatus_precedence _ _ _ _).2.2.1 (by decide) (by decide)
      ⟨"T1", "S1"⟩ [] rfl).trans (by decide),
   ((resolveStatus_precedence _ _ _ _).2.2.2 (by decide) (by decide) rfl).trans
      (by decide)⟩

/-- C3.  Append behavior of the upsert when no operation carries the
identifier: one trailing bare newline operation is stripped if present, a
separator newline is inserted exactly when the stripped sequence is
non-empty, and the fresh link pair plus terminator is appended.  (The input
list itself is a value and is never mutated; the source likewise copies the
array before editing.) -/
theorem updateObsidianLinkById_append_shape (ops : List DeltaOp)
    (title url sid : String) (h : findObsidianLinkById ops sid = none) :
    updateObsidianLinkById ops title url sid =
      (match ops.getLast? with
       | some lastOp => if isOnlyNewline lastOp then ops.dropLast else ops
       | none => ops) ++
      ((if (match ops.getLast? with
            | some lastOp => if isOnlyNewline lastOp then ops.dropLast else ops
            | none => ops).isEmpty then ([] : List DeltaOp)
        else [{ insert := "\n", attributes := none }]) ++
       createNoteLinkOps title url sid) := by
  simp only [updateObsidianLinkById, h]
  cases hlast : ops.getLast? with
  | none =>
      by_cases he : ops.isEmpty
      · simp [he]
      · simp [he]
  | some lastOp =>
      by_cases hnl : isOnlyNewline lastOp
      · by_cases he : ops.dropLast.isEmpty
        · simp [hnl, he]
        · simp [hnl, he]
      · by_cases he : ops.isEmpty
        · simp [hnl, he]
        · simp [hnl, he]

/-- Witness for C3: a body `[text, newline]` gets the trailing newline
stripped, one separator newline, then the identified link pair. -/
theorem updateObsidianLinkById_append_shape_witness :
    updateObsidianLinkById
        [⟨"hello", none⟩, ⟨"\n", none⟩] "t" "obsidian://open?vault=v&file=f" "s" =
      [⟨"hello", none⟩, ⟨"\n", none⟩,
       ⟨"Obsidian: \"t\"",
        some ⟨some "obsidian://open?vault=v&file=f#sid=s", []⟩⟩,
       ⟨"\n", none⟩] :=
  (updateObsidianLinkById_append_shape
      [⟨"hello", none⟩, ⟨"\n", none⟩] "t" "obsidian://open?vault=v&file=f" "s"
      rfl).trans rfl

/-- C4.  Non-destructive update: when an operation carries the identifier,
only that operation is replaced (new text, new link, other attributes kept);
the result has the same length and every other position is unchanged. -/
theorem updateObsidianLinkById_frame (ops : List DeltaOp)
    (title url sid : String) (i : Nat) (op : DeltaOp)
    (h : findObsidianLinkById ops sid = some (i, op)) :
    (updateObsidianLinkById ops title url sid).length = ops.length ∧
    (updateObsidianLinkById ops title url sid)[i]? =
      some { insert := "Obsidian: \"" ++ title ++ "\"",
             attributes := some (attrsWithLink op.attributes
               (url ++ "#sid=" ++ sid)) } ∧
    (∀ a, op.attributes = some a →
      (attrsWithLink op.attributes (url ++ "#sid=" ++ sid)).other = a.other) ∧
    (∀ j, j ≠ i → (updateObsidianLinkById ops title url sid)[j]? = ops[j]?) := by
  obtain ⟨pre, rest, hops, hlen, _, _⟩ := findOpFrom_some_decomp h
  have hi : i < ops.length := by
    subst hops
    simp [List.length_append, List.length_cons]
    omega
  have hupd : updateObsidianLinkById ops title url sid =
      ops.set i
        { insert := "Obsidian: \"" ++ title ++ "\"",
          attributes := some (attrsWithLink op.attributes
            (url ++ "#sid=" ++ sid)) } := by
    simp only [updateObsidianLinkById, h]
  refine ⟨by rw [hupd, List.length_set], ?_, ?_, ?_⟩
  · rw [hupd, List.getElem?_set_self hi]
  · intro a ha
    rw [ha]
    rfl
  · intro j hj
    rw [hupd, List.getElem?_set_ne (Ne.symm hj)]

/-- Witness for C4: a body with a leading text operation and the identified
link in second position; the first operation survives untouched and the
second is rewritten. -/
theorem updateObsidianLinkById_frame_witness :
    (updateObsidianLinkById
        [⟨"note", none⟩,
         ⟨"old", some ⟨some "obsidian://open?vault=v&file=old#sid=s",
                        [("bold", Json.jbool true)]⟩⟩]
        "t" "obsidian://open?vault=v&file=new" "s").length = 2 ∧
    (updateObsidianLinkById
        [⟨"note", none⟩,
         ⟨"old", some ⟨some "obsidian://open?vault=v&file=old#sid=s",
                        [("bold", Json.jbool true)]⟩⟩]
        "t" "obsidian://open?vault=v&file=new" "s")[1]? =
      some ⟨"Obsidian: \"t\"",
            some ⟨some "obsidian://open?vault=v&file=new#sid=s",
                  [("bold", Json.jbool true)]⟩⟩ ∧
    (updateObsidianLinkById
        [⟨"note", none⟩,
         ⟨"old", some ⟨some "obsidian://open?vault=v&file=old#sid=s",
                        [("bold", Json.jbool true)]⟩⟩]
        "t" "obsidian://open?vault=v&file=new" "s")[0]? = some ⟨"note", none⟩ := by
  have h := updateObsidianLinkById_frame
    [⟨"note", none⟩,
     ⟨"old", some ⟨some "obsidian://open?vault=v&file=old#sid=s",
                    [("bold", Json.jbool true)]⟩⟩]
    "t" "obsidian://open?vault=v&file=new" "s" 1
    ⟨"old", some ⟨some "obsidian://open?vault=v&file=old#sid=s",
                   [("bold", Json.jbool true)]⟩⟩ rfl
  exact ⟨h.1, h.2.1.trans rfl, (h.2.2.2 0 (by decide)).trans rfl⟩

/-- C10.  Null-status edge cases: for an active task (neither completed nor
cancelled), an assignment whose identifier is missing from the scoped status
set resolves to `null` (no backlog fallback), as does an empty assignment
list when the status set has no `-TODO` entry; in both cases `getTaskData`
still resolves (does not reject) and stores the record with a `null`
status. -/
theorem resolveStatus_null_edge (locale : Locale) (task : SingularityTask)
    (tks : List TaskKanbanStatus) (ps : List KanbanStatus)
    (h2 : task.checked ≠ 2) (h1 : task.checked ≠ 1) :
    (∀ a rest, tks = a :: rest → (∀ s ∈ ps, s.id ≠ a.statusId) →
      resolveStatus locale task tks ps = none) ∧
    (tks = [] → (∀ s ∈ ps, strEnds s.id "-TODO" = false) →
      resolveStatus locale task tks ps = none) ∧
    (∀ env ttl now st taskId st1 tags st2,
      mapLookup st.taskCache taskId = none →
      env.getTask taskId = Except.ok task →
      env.getTaskKanbanStatus taskId = Except.ok tks →
      getKanbanStatusesCached env ttl now st task.projectId = (Except.ok ps, st1) →
      getTagsByIdsCached env ttl now st1 task.tags = (Except.ok tags, st2) →
      resolveStatus locale task tks ps = none →
      (getTaskData env locale ttl now st taskId).1 =
        Except.ok (buildTaskData locale task tks ps tags) ∧
      (buildTaskData locale task tks ps tags).status = none) := by
  refine ⟨?_, ?_, ?_⟩
  · intro a rest ha hnone
    subst ha
    have hf : ps.find? (fun s => s.id = a.statusId) = none := by
      rw [List.find?_eq_none]
      intro x hx
      simpa using hnone x hx
    simp [resolveStatus, h2, h1, hf]
  · intro h0 hnone
    subst h0
    have hf : ps.find? (fun s => strEnds s.id "-TODO") = none := by
      rw [List.find?_eq_none]
      intro x hx
      simpa using hnone x hx
    simp [resolveStatus, h2, h1, hf]
  · intro env ttl now st taskId st1 tags st2 hmiss htask htks hk ht hnull
    refine ⟨?_, by simpa [buildTaskData] using hnull⟩
    simp only [getTaskData, hmiss, fetchTaskData, htask, htks, hk, ht]

/-- Witness for C10: an active task with an assignment pointing at a missing
status resolves to a stored record with `null` status; `getTaskData` returns
it successfully. -/
theorem resolveStatus_null_edge_witness :
    resolveStatus ⟨"Cancelled", "Done"⟩ ⟨"T1", "t", none, "P", [], 0⟩
        [⟨"T1", "S-GONE"⟩] [⟨"S1", "In progress"⟩] = none ∧
    (getTaskData
        ⟨fun _ => Except.ok ⟨"T1", "t", none, "P", [], 0⟩,
         fun _ => Except.ok [⟨"T1", "S-GONE"⟩],
         fun _ => Except.ok [⟨"S1", "In progress"⟩],
         Except.ok []⟩
        ⟨"Cancelled", "Done"⟩ 5 0 ⟨[], [], none⟩ "T1").1 =
      Except.ok ⟨"T1", "t", "P", none, [], none, false, false⟩ := by
  have h := resolveStatus_null_edge ⟨"Cancelled", "Done"⟩
    ⟨"T1", "t", none, "P", [], 0⟩ [⟨"T1", "S-GONE"⟩] [⟨"S1", "In progress"⟩]
    (by decide) (by decide)
  have h1 := h.1 ⟨"T1", "S-GONE"⟩ [] rfl (by decide)
  have h3 := (h.2.2
    ⟨fun _ => Except.ok ⟨"T1", "t", none, "P", [], 0⟩,
     fun _ => Except.ok [⟨"T1", "S-GONE"⟩],
     fun _ => Except.ok [⟨"S1", "In progress"⟩],
     Except.ok []⟩
    5 0 ⟨[], [], none⟩ "T1"
    ⟨[], [("P", ⟨[⟨"S1", "In progress"⟩], 0⟩)], none⟩ []
    ⟨[], [("P", ⟨[⟨"S1", "In progress"⟩], 0⟩)], some ⟨[], 0⟩⟩
    rfl rfl rfl rfl rfl h1).1
  exact ⟨h1, h3.trans rfl⟩

theorem strStarts_ne_empty {l pre : String} (h : strStarts l pre = true)
    (hpre : pre ≠ "") : l ≠ "" := by
  intro hl
  subst hl
  rw [strStarts] at h
  cases hp : pre.toList with
  | nil =>
      apply hpre
      have hmk : pre = String.mk pre.toList := (str_mk_toList pre).symm
      rw [hmk, hp]
  | cons c cs =>
      rw [hp] at h
      simp [listHasPre] at h

/-- C5.  Legacy migration: on a body with no operation carrying the target
identifier and whose first (here: unique) unmigrated legacy `obsidian://`
link sits between `pre` and `post`, synchronization rewrites exactly that
operation, appending the fragment to its link and keeping its display text,
and appends no second link operation. -/
theorem syncDecision_legacy_migration (pre post : List DeltaOp)
    (legacyOp : DeltaOp) (title url sid : String) (a : DeltaAttrs) (l : String)
    (hattrs : legacyOp.attributes = some a) (hlink : a.link = some l)
    (hno : findObsidianLinkById (pre ++ legacyOp :: post) sid = none)
    (hleg : isLegacyObsidianLink legacyOp = true)
    (hpre : ∀ o ∈ pre, isLegacyObsidianLink o = false) :
    syncDecision (pre ++ legacyOp :: post) title url sid =
      some (pre ++
        { legacyOp with attributes := some { a with
            link := some (l ++ "#sid=" ++ sid) } } :: post) ∧
    (pre ++
      { legacyOp with attributes := some { a with
          link := some (l ++ "#sid=" ++ sid) } } :: post).length =
      (pre ++ legacyOp :: post).length := by
  have hfa : findAnyObsidianLink (pre ++ legacyOp :: post) =
      some (pre.length, legacyOp) := by
    simpa using findOpFrom_append_first hpre hleg post 0
  have hstarts : strStarts l "obsidian://" = true := by
    have : opLink legacyOp = some l := by simp [opLink, hattrs, hlink]
    simp [isLegacyObsidianLink, this, Bool.and_eq_true] at hleg
    exact hleg.1
  have hlne : l ≠ "" := strStarts_ne_empty hstarts (by decide)
  have hget : (pre ++ legacyOp :: post)[pre.length]? = some legacyOp := by
    rw [List.getElem?_append_right (Nat.le_refl _)]
    simp
  constructor
  · simp only [syncDecision, hno, hfa, addSidToLink, hget, hattrs, hlink,
      if_neg hlne]
    rw [set_append_len]
  · simp

/-- Witness for C5: a body `[text, legacy link]` gets the fragment added to
the existing link, text preserved, length unchanged. -/
theorem syncDecision_legacy_migration_witness :
    syncDecision
        [⟨"note", none⟩, ⟨"My note", some ⟨some "obsidian://open?vault=v&file=f", []⟩⟩]
        "t" "obsidian://open?vault=v&file=f" "abc" =
      some [⟨"note", none⟩,
            ⟨"My note", some ⟨some "obsidian://open?vault=v&file=f#sid=abc", []⟩⟩] := by
  have h := syncDecision_legacy_migration
    [⟨"note", none⟩] [] ⟨"My note", some ⟨some "obsidian://open?vault=v&file=f", []⟩⟩
    "t" "obsidian://open?vault=v&file=f" "abc"
    ⟨some "obsidian://open?vault=v&file=f", []⟩ "obsidian://open?vault=v&file=f"
    rfl rfl rfl rfl (by intro o ho; simp at ho; subst ho; rfl)
  exact h.1.trans rfl

/-! ### Cache state lemmas for C8 -/

theorem getTagsCached_taskCache (env : ApiEnv) (ttl now : Int) (st : CacheState) :
    (getTagsCached env ttl now st).2.taskCache = st.taskCache := by
  rw [getTagsCached]
  cases st.tagsCache with
  | none => cases env.getTags <;> simp
  | some e =>
      by_cases h : isExpired ttl now e.timestamp
      · simp only [h]
        cases env.getTags <;> simp
      · simp [h]

theorem getTagsByIdsCached_taskCache (env : ApiEnv) (ttl now : Int)
    (st : CacheState) (tagIds : List String) :
    (getTagsByIdsCached env ttl now st tagIds).2.taskCache = st.taskCache := by
  rw [getTagsByIdsCached]
  have := getTagsCached_taskCache env ttl now st
  cases hg : getTagsCached env ttl now st with
  | mk r st' =>
      rw [hg] at this
      cases r <;> simpa using this

theorem getKanbanStatusesCached_taskCache (env : ApiEnv) (ttl now : Int)
    (st : CacheState) (projectId : String) :
    (getKanbanStatusesCached env ttl now st projectId).2.taskCache = st.taskCache := by
  rw [getKanbanStatusesCached]
  cases mapLookup st.kanbanCache projectId with
  | none => cases env.getKanbanStatuses projectId <;> simp
  | some e =>
      by_cases h : isExpired ttl now e.timestamp
      · simp only [h]
        cases env.getKanbanStatuses projectId <;> simp
      · simp [h]

/-- C8.  Enrichment atomicity: on a per-task cache miss, if the task fetch,
the assignment fetch, the scoped status-set fetch or the tag fetch rejects,
then `getTaskData` rejects and the per-task cache map is exactly the one it
started with — no partial enriched record is stored. -/
theorem getTaskData_enrichment_atomicity (env : ApiEnv) (locale : Locale)
    (ttl now : Int) (st : CacheState) (taskId : String)
    (hmiss : taskCacheMiss ttl now st taskId = true) :
    (∀ e, env.getTask taskId = Except.error e →
      getTaskData env locale ttl now st taskId = (Except.error e, st)) ∧
    (∀ task e, env.getTask taskId = Except.ok task →
      env.getTaskKanbanStatus taskId = Except.error e →
      getTaskData env locale ttl now st taskId = (Except.error e, st)) ∧
    (∀ task tks e st1, env.getTask taskId = Except.ok task →
      env.getTaskKanbanStatus taskId = Except.ok tks →
      getKanbanStatusesCached env ttl now st task.projectId = (Except.error e, st1) →
      getTaskData env locale ttl now st taskId = (Except.error e, st1) ∧
      st1.taskCache = st.taskCache) ∧
    (∀ task tks ps st1 e st2, env.getTask taskId = Except.ok task →
      env.getTaskKanbanStatus taskId = Except.ok tks →
      getKanbanStatusesCached env ttl now st task.projectId = (Except.ok ps, st1) →
      getTagsByIdsCached env ttl now st1 task.tags = (Except.error e, st2) →
      getTaskData env locale ttl now st taskId = (Except.error e, st2) ∧
      st2.taskCache = st.taskCache) := by
  have hdata : getTaskData env locale ttl now st taskId =
      fetchTaskData env locale ttl now st taskId := by
    rw [getTaskData]
    rw [taskCacheMiss] at hmiss
    cases hl : mapLookup st.taskCache taskId with
    | none => rfl
    | some entry =>
        rw [hl] at hmiss
        have hexp : isExpired ttl now entry.timestamp = true := by
          simpa using hmiss
        simp [hexp]
  refine ⟨?_, ?_, ?_, ?_⟩
  · intro e he
    rw [hdata]
    simp only [fetchTaskData, he]
  · intro task e htask he
    rw [hdata]
    simp only [fetchTaskData, htask, he]
  · intro task tks e st1 htask htks hk
    constructor
    · rw [hdata]
      simp only [fetchTaskData, htask, htks, hk]
    · have := getKanbanStatusesCached_taskCache env ttl now st task.projectId
      rw [hk] at this
      exact this
  · intro task tks ps st1 e st2 htask htks hk ht
    constructor
    · rw [hdata]
      simp only [fetchTaskData, htask, htks, hk, ht]
    · have h1 := getKanbanStatusesCached_taskCache env ttl now st task.projectId
      rw [hk] at h1
      have h2 := getTagsByIdsCached_taskCache env ttl now st1 task.tags
      rw [ht] at h2
      exact h2.trans h1

/-- Witness for C8: with an empty cache, a failing tag fetch (all other
fetches succeeding) makes `getTaskData` reject and leaves the per-task map
empty, even though the kanban map was populated. -/
theorem getTaskData_enrichment_atomicity_witness :
    getTaskData
        ⟨fun _ => Except.ok ⟨"T1", "t", none, "P", [], 0⟩,
         fun _ => Except.ok [],
         fun _ => Except.ok [⟨"S1", "In progress"⟩],
         Except.error "tags down"⟩
        ⟨"Cancelled", "Done"⟩ 5 0 ⟨[], [], none⟩ "T1" =
      (Except.error "tags down",
       ⟨[], [("P", ⟨[⟨"S1", "In progress"⟩], 0⟩)], none⟩) ∧
    (⟨[], [("P", ⟨[⟨"S1", "In progress"⟩], 0⟩)], none⟩ : CacheState).taskCache =
      (⟨[], [], none⟩ : CacheState).taskCache := by
  have h := (getTaskData_enrichment_atomicity
    ⟨fun _ => Except.ok ⟨"T1", "t", none, "P", [], 0⟩,
     fun _ => Except.ok [],
     fun _ => Except.ok [⟨"S1", "In progress"⟩],
     Except.error "tags down"⟩
    ⟨"Cancelled", "Done"⟩ 5 0 ⟨[], [], none⟩ "T1" rfl).2.2.2
    ⟨"T1", "t", none, "P", [], 0⟩ [] [⟨"S1", "In progress"⟩]
    ⟨[], [("P", ⟨[⟨"S1", "In progress"⟩], 0⟩)], none⟩ "tags down"
    ⟨[], [("P", ⟨[⟨"S1", "In progress"⟩], 0⟩)], none⟩
    rfl rfl rfl rfl
  exact h

/-- C9.  Cache expiry boundary: a cached entry with timestamp `T` read at
`now` is served unchanged (same state, result independent of the remote
environment) when `now - T ≤ ttl` milliseconds, and triggers the refetch
path when `now - T > ttl`; the comparison uses the entry's own timestamp. -/
theorem getTaskData_cache_expiry (env : ApiEnv) (locale : Locale)
    (ttl now : Int) (st : CacheState) (taskId : String)
    (entry : CacheEntry TaskData)
    (h : mapLookup st.taskCache taskId = some entry) :
    (now - entry.timestamp ≤ ttl * 60 * 1000 →
      getTaskData env locale ttl now st taskId = (Except.ok entry.data, st)) ∧
    (now - entry.timestamp > ttl * 60 * 1000 →
      getTaskData env locale ttl now st taskId =
        fetchTaskData env locale ttl now st taskId) := by
  constructor
  · intro hle
    rw [getTaskData, h]
    have : isExpired ttl now entry.timestamp = false := by
      simp [isExpired]
      omega
    simp [this]
  · intro hgt
    rw [getTaskData, h]
    have : isExpired ttl now entry.timestamp = true := by
      simp [isExpired]
      omega
    simp [this]

/-- Witness for C9 at the boundary: with `ttl = 5` minutes and an entry
fetched at `T = 0`, a read at `now = 300000` is served from the cache with
no state change, and a read at `now = 300001` takes the fetch path (here:
hitting the failing remote). -/
theorem getTaskData_cache_expiry_witness :
    getTaskData
        ⟨fun _ => Except.error "down", fun _ => Except.error "down",
         fun _ => Except.error "down", Except.error "down"⟩
        ⟨"Cancelled", "Done"⟩ 5 300000
        ⟨[("T1", ⟨⟨"T1", "t", "P", none, [], none, false, false⟩, 0⟩)], [], none⟩
        "T1" =
      (Except.ok ⟨"T1", "t", "P", none, [], none, false, false⟩,
       ⟨[("T1", ⟨⟨"T1", "t", "P", none, [], none, false, false⟩, 0⟩)], [], none⟩) ∧
    getTaskData
        ⟨fun _ => Except.error "down", fun _ => Except.error "down",
         fun _ => Except.error "down", Except.error "down"⟩
        ⟨"Cancelled", "Done"⟩ 5 300001
        ⟨[("T1", ⟨⟨"T1", "t", "P", none, [], none, false, false⟩, 0⟩)], [], none⟩
        "T1" =
      fetchTaskData
        ⟨fun _ => Except.error "down", fun _ => Except.error "down",
         fun _ => Except.error "down", Except.error "down"⟩
        ⟨"Cancelled", "Done"⟩ 5 300001
        ⟨[("T1", ⟨⟨"T1", "t", "P", none, [], none, false, false⟩, 0⟩)], [], none⟩
        "T1" := by
  constructor
  · exact (getTaskData_cache_expiry _ _ 5 300000
      ⟨[("T1", ⟨⟨"T1", "t", "P", none, [], none, false, false⟩, 0⟩)], [], none⟩
      "T1" ⟨⟨"T1", "t", "P", none, [], none, false, false⟩, 0⟩ rfl).1 (by decide)
  · exact (getTaskData_cache_expiry _ _ 5 300001
      ⟨[("T1", ⟨⟨"T1", "t", "P", none, [], none, false, false⟩, 0⟩)], [], none⟩
      "T1" ⟨⟨"T1", "t", "P", none, [], none, false, false⟩, 0⟩ rfl).2 (by decide)

/-! ### Shared lemmas about freshly written identified links -/

theorem attrsWithLink_link (a : Option DeltaAttrs) (v : String) :
    (attrsWithLink a v).link = some v := by
  cases a <;> rfl

theorem strIncludes_append_sid (url sid : String) :
    strIncludes (url ++ "#sid=" ++ sid) ("#sid=" ++ sid) = true := by
  rw [strIncludes, str_toList_append, str_toList_append, str_toList_append,
    List.append_assoc]
  exact listHasSub_of_suffix _ (listHasPre_refl _)

theorem opHasSid_of_opLink {op : DeltaOp} {url sid : String}
    (h : opLink op = some (url ++ "#sid=" ++ sid)) : opHasSid sid op = true := by
  simp only [opHasSid, h]
  exact strIncludes_append_sid url sid

/-- The base URL recovered from a link of the form `url#sid=<id>` with `url`
an `obsidian://` address free of the marker is `url` itself. -/
theorem extractBaseUrl_of_newlink {op : DeltaOp} {url sid : String}
    (hurl : strStarts url "obsidian://" = true)
    (hfrag : strIncludes url "#sid=" = false)
    (h : opLink op = some (url ++ "#sid=" ++ sid)) :
    extractBaseUrl op = some url := by
  have hl : (url ++ "#sid=" ++ sid).toList =
      url.toList ++ ('#' :: 's' :: 'i' :: 'd' :: '=' :: sid.toList) := by
    rw [str_toList_append, str_toList_append, List.append_assoc]
    rfl
  have hidx : strIndexOf (url ++ "#sid=" ++ sid) "#sid=" =
      (url.toList.length : Int) := by
    rw [strIndexOf, hl]
    simpa using idxAux_append (v := url.toList) sid.toList 0
      (by simpa [strIncludes] using hfrag)
  have hlen : 11 ≤ url.toList.length := by
    simpa using listHasPre_length (p := "obsidian://".toList) (l := url.toList)
      (by simpa [strStarts] using hurl)
  have hstarts2 : strStarts (url ++ "#sid=" ++ sid) "obsidian://" = true := by
    rw [strStarts, str_toList_append, str_toList_append, List.append_assoc]
    exact listHasPre_append_left (by simpa [strStarts] using hurl) _
  have htake : strTake (url ++ "#sid=" ++ sid) url.toList.length = url := by
    rw [strTake, hl, List.take_left, str_mk_toList]
  simp only [extractBaseUrl, h, hstarts2, hidx]
  rw [if_pos (by simp [hstarts2])]
  rw [if_pos (by positivity)]
  rw [Int.toNat_ofNat, htake]

/-! ### Identity-scheme claims -/

/-- C6 counterexample: the field value `"s#sid="` contains the literal
`#sid=` with no identifier characters after it.  It carries no extractable
fragment, yet the mutator leaves it unchanged (no append), and two
successive calls return two different freshly generated identifiers even
though no write failed. -/
theorem getOrCreateSingularityId_gap_counterexample :
    extractSidFromUrl "s#sid=" = none ∧
    getOrCreateSingularityId (fun _ => 0) "s#sid=" =
      ("00000000-0000-4000-8000-000000000000", some "s#sid=") ∧
    ("s#sid=" : String) ≠
      "s#sid=" ++ "#sid=" ++ "00000000-0000-4000-8000-000000000000" ∧
    (getOrCreateSingularityId (fun _ => 1) "s#sid=").1 ≠
      (getOrCreateSingularityId (fun _ => 0) "s#sid=").1 :=
  ⟨rfl, rfl, by decide, by decide⟩

/-- C6 (amended).  For a field value with no `#sid=` substring at all, the
identity scheme generates a UUID, persists it by appending the fragment, and
returns it; any later call on the persisted value (whatever its random
stream) returns the same identifier with no further mutation.  A value
already carrying an extractable fragment is returned unchanged with no
mutation. -/
theorem getOrCreateSingularityId_stability (v : String) (rnd rnd2 : Nat → Nat)
    (hv : strIncludes v "#sid=" = false) :
    (∀ w s, extractSidFromUrl w = some s →
      getOrCreateSingularityId rnd w = (s, none)) ∧
    getOrCreateSingularityId rnd v =
      (generateUUID rnd, some (v ++ "#sid=" ++ generateUUID rnd)) ∧
    getOrCreateSingularityId rnd2 (v ++ "#sid=" ++ generateUUID rnd) =
      (generateUUID rnd, none) := by
  refine ⟨?_, ?_, ?_⟩
  · intro w s hw
    simp [getOrCreateSingularityId, hw]
  · have hex : extractSidFromUrl v = none :=
      extractSidAux_of_no_sub (by simpa [strIncludes] using hv)
    simp [getOrCreateSingularityId, hex, addSidToFieldValue, hv]
  · have hl : (v ++ "#sid=" ++ generateUUID rnd).toList =
        v.toList ++ ('#' :: 's' :: 'i' :: 'd' :: '=' :: (generateUUID rnd).toList) := by
      rw [str_toList_append, str_toList_append, List.append_assoc]
      rfl
    have hex2 : extractSidFromUrl (v ++ "#sid=" ++ generateUUID rnd) =
        some (generateUUID rnd) := by
      rw [extractSidFromUrl, hl,
        extractSidAux_append (generateUUID rnd).toList
          (by simpa [strIncludes] using hv)
          (generateUUID_ne_nil rnd) (generateUUID_chars rnd),
        str_mk_toList]
    simp [getOrCreateSingularityId, hex2]

/-- Witness for C6 (amended) on a concrete reference URL and two different
random streams. -/
theorem getOrCreateSingularityId_stability_witness :
    getOrCreateSingularityId (fun _ => 0) "singularityapp://?&page=any&id=T-1" =
      ("00000000-0000-4000-8000-000000000000",
       some "singularityapp://?&page=any&id=T-1#sid=00000000-0000-4000-8000-000000000000") ∧
    getOrCreateSingularityId (fun _ => 1)
        "singularityapp://?&page=any&id=T-1#sid=00000000-0000-4000-8000-000000000000" =
      ("00000000-0000-4000-8000-000000000000", none) := by
  have h := getOrCreateSingularityId_stability "singularityapp://?&page=any&id=T-1"
    (fun _ => 0) (fun _ => 1) (by decide)
  have h22 := h.2.2
  rw [show ("singularityapp://?&page=any&id=T-1" ++ "#sid=" ++
      generateUUID (fun _ => 0) : String) =
      "singularityapp://?&page=any&id=T-1#sid=00000000-0000-4000-8000-000000000000"
    by decide] at h22
  exact ⟨h.2.1.trans (by decide), h22.trans (by decide)⟩

/-! ### Parsing claims -/

/-- C7 counterexample: the JSON value `{}` is not a valid operation sequence,
yet a body whose content parses to it is not treated as the empty sequence —
the unchecked cast returns the object itself. -/
theorem parseNoteContent_valid_json_counterexample :
    isOpSeqJson (Json.jobj []) = false ∧
    parseNoteContent (some (Json.jobj [])) ≠ Json.jarr [] :=
  ⟨rfl, fun h => Json.noConfusion h⟩

/-- C7 (amended).  A content string that is not valid JSON parses to the
empty sequence, and synchronization on an empty body appends exactly the
fresh identified link pair, which a subsequent identifier lookup locates at
position 0. -/
theorem parseNoteContent_invalid_json (title url sid : String) :
    parseNoteContent none = Json.jarr [] ∧
    opsOfJson (parseNoteContent none) = some [] ∧
    syncDecision [] title url sid = some (createNoteLinkOps title url sid) ∧
    findObsidianLinkById (createNoteLinkOps title url sid) sid =
      some (0, { insert := "Obsidian: \"" ++ title ++ "\"",
                 attributes := some { link := some (url ++ "#sid=" ++ sid),
                                      other := [] } }) := by
  refine ⟨rfl, rfl, rfl, ?_⟩
  have hs : opHasSid sid
      ({ insert := "Obsidian: \"" ++ title ++ "\"",
         attributes := some { link := some (url ++ "#sid=" ++ sid),
                              other := [] } } : DeltaOp) = true := by
    exact @opHasSid_of_opLink _ url sid rfl
  simp [findObsidianLinkById, createNoteLinkOps, findOpFrom, hs]

/-! ### Synchronizer idempotence (C1) -/

/-- C1 counterexample: a body holding one legacy link whose address differs
from the desired note URL.  The first synchronization migrates the link
(adding the fragment, keeping the stale address) and writes; the second
synchronization, on the unchanged note, finds the identified link with a
non-matching base URL and writes again — the second run is not write-free. -/
theorem syncDecision_second_write_after_migration :
    syncDecision
        [⟨"My note", some ⟨some "obsidian://open?vault=v&file=old", []⟩⟩]
        "t" "obsidian://open?vault=v&file=new" "abc" =
      some [⟨"My note", some ⟨some "obsidian://open?vault=v&file=old#sid=abc", []⟩⟩] ∧
    (syncDecision
        [⟨"My note", some ⟨some "obsidian://open?vault=v&file=old#sid=abc", []⟩⟩]
        "t" "obsidian://open?vault=v&file=new" "abc").isSome = true :=
  ⟨rfl, rfl⟩

/-- Decomposition of the append branch of the upsert: when no operation
carries the identifier, the result is some prefix (drawn from the input plus
possibly a bare separator newline) followed by the fresh link pair. -/
theorem upsert_append_parts (ops : List DeltaOp) (title url sid : String)
    (h : findObsidianLinkById ops sid = none) :
    ∃ pre2, updateObsidianLinkById ops title url sid =
        pre2 ++ newLinkOp title url sid none :: [⟨"\n", none⟩] ∧
      ∀ o ∈ pre2, o ∈ ops ∨ o = (⟨"\n", none⟩ : DeltaOp) := by
  simp only [updateObsidianLinkById, h]
  refine ⟨_, rfl, ?_⟩
  intro o ho
  have hstrip : ∀ x : DeltaOp, x ∈ (match ops.getLast? with
      | some lastOp => if isOnlyNewline lastOp then ops.dropLast else ops
      | none => ops) → x ∈ ops := by
    intro x hx
    revert hx
    split
    · split
      · exact fun hx => List.dropLast_subset ops hx
      · exact fun hx => hx
    · exact fun hx => hx
  revert ho
  split
  · exact fun ho => Or.inl (hstrip o ho)
  · intro ho
    rcases List.mem_append.mp ho with h1 | h1
    · exact Or.inl (hstrip o h1)
    · simp at h1
      exact Or.inr h1

/-- C1 (amended).  The idempotence guard: when the identifier lookup finds an
operation whose base URL already equals the desired note URL, no write
occurs.  Convergence: provided the first run is not a legacy migration (the
body either carries the identified link or holds no unidentified
`obsidian://` link), a second run on the body written by the first performs
no write.  (After a legacy migration of a link whose address differs from
the desired URL, the second run performs one further write — see the
counterexample.)  The hypotheses on `url` hold for every address produced by
`buildObsidianUrl`: it starts with `obsidian://` and percent-encoding keeps
`#sid=` out of it. -/
theorem syncDecision_idempotence (ops : List DeltaOp) (title url sid : String)
    (hurl : strStarts url "obsidian://" = true)
    (hfrag : strIncludes url "#sid=" = false) :
    (∀ i op, findObsidianLinkById ops sid = some (i, op) →
      extractBaseUrl op = some url → syncDecision ops title url sid = none) ∧
    ((findAnyObsidianLink ops = none ∨ (findObsidianLinkById ops sid).isSome = true) →
      ∀ ops1, syncDecision ops title url sid = some ops1 →
        syncDecision ops1 title url sid = none) := by
  have hlinkop : ∀ a : Option DeltaAttrs,
      opLink (newLinkOp title url sid a) = some (url ++ "#sid=" ++ sid) := by
    intro a
    simp [opLink, newLinkOp, attrsWithLink_link]
  constructor
  · intro i op hfind hbase
    simp [syncDecision, hfind, hbase]
  · intro hcase ops1 hrun
    cases hById : findObsidianLinkById ops sid with
    | some r =>
        obtain ⟨i, op⟩ := r
        by_cases hbase : extractBaseUrl op = some url
        · simp [syncDecision, hById, hbase] at hrun
        · simp only [syncDecision, hById, if_neg hbase, Option.some.injEq] at hrun
          obtain ⟨pre, rest, hops, hlen, hpre, _⟩ := findOpFrom_some_decomp hById
          have hi : i = pre.length := by omega
          subst hi
          subst hrun
          have hupd : updateObsidianLinkById ops title url sid =
              pre ++ newLinkOp title url sid op.attributes :: rest := by
            simp only [updateObsidianLinkById, hById]
            rw [hops]
            exact set_append_len pre op _ rest
          have hfind1 : findObsidianLinkById
              (updateObsidianLinkById ops title url sid) sid =
              some (pre.length, newLinkOp title url sid op.attributes) := by
            rw [hupd]
            simpa using findOpFrom_append_first hpre
              (opHasSid_of_opLink (hlinkop op.attributes)) rest 0
          simp [syncDecision, hfind1,
            extractBaseUrl_of_newlink hurl hfrag (hlinkop op.attributes)]
    | none =>
        have hAny : findAnyObsidianLink ops = none := by
          rcases hcase with h1 | h1
          · exact h1
          · rw [hById] at h1
            simp at h1
        simp only [syncDecision, hById, hAny, Option.some.injEq] at hrun
        subst hrun
        have hall : ∀ o ∈ ops, opHasSid sid o = false := findOpFrom_eq_none.mp hById
        obtain ⟨pre2, heq, hmem⟩ := upsert_append_parts ops title url sid hById
        have hpre2 : ∀ o ∈ pre2, opHasSid sid o = false := by
          intro o ho
          rcases hmem o ho with h1 | h1
          · exact hall o h1
          · rw [h1]
            rfl
        have hfind1 : findObsidianLinkById
            (updateObsidianLinkById ops title url sid) sid =
            some (pre2.length, newLinkOp title url sid none) := by
          rw [heq]
          simpa using findOpFrom_append_first hpre2
            (opHasSid_of_opLink (hlinkop none)) _ 0
        simp [syncDecision, hfind1,
          extractBaseUrl_of_newlink hurl hfrag (hlinkop none)]

/-- Witness for C1 (amended): a body already carrying the identified link at
the desired URL is left alone on the first run (guard), and a body with no
obsidian link at all gets the link appended by a first run after which the
second run writes nothing. -/
theorem syncDecision_idempotence_witness :
    syncDecision
        [⟨"x", some ⟨some "obsidian://open?vault=v&file=new#sid=abc", []⟩⟩]
        "t" "obsidian://open?vault=v&file=new" "abc" = none ∧
    syncDecision
        [⟨"plain text", none⟩]
        "t" "obsidian://open?vault=v&file=new" "abc" =
      some [⟨"plain text", none⟩, ⟨"\n", none⟩,
            ⟨"Obsidian: \"t\"",
             some ⟨some "obsidian://open?vault=v&file=new#sid=abc", []⟩⟩,
            ⟨"\n", none⟩] ∧
    syncDecision
        [⟨"plain text", none⟩, ⟨"\n", none⟩,
         ⟨"Obsidian: \"t\"",
          some ⟨some "obsidian://open?vault=v&file=new#sid=abc", []⟩⟩,
         ⟨"\n", none⟩]
        "t" "obsidian://open?vault=v&file=new" "abc" = none := by
  have h1 := (syncDecision_idempotence
    [⟨"x", some ⟨some "obsidian://open?vault=v&file=new#sid=abc", []⟩⟩]
    "t" "obsidian://open?vault=v&file=new" "abc" (by decide) (by decide)).1
    0 ⟨"x", some ⟨some "obsidian://open?vault=v&file=new#sid=abc", []⟩⟩ rfl (by decide)
  have h2 := (syncDecision_idempotence
    [⟨"plain text", none⟩]
    "t" "obsidian://open?vault=v&file=new" "abc" (by decide) (by decide)).2
    (Or.inl rfl)
    [⟨"plain text", none⟩, ⟨"\n", none⟩,
     ⟨"Obsidian: \"t\"",
      some ⟨some "obsidian://open?vault=v&file=new#sid=abc", []⟩⟩,
     ⟨"\n", none⟩] rfl
  exact ⟨h1, rfl, h2⟩

end Singularity
